import Mathlib

/-!
Verification of the epurer cleanup tool (Go) against its natural-language
specification.  The Go source is shallowly embedded: pure decision functions
become Lean functions, filesystem-touching code is parameterised by an
explicit environment (`FsEnv`, `StatEnv`, trees), the cooperative
cancellation context becomes a predicate on check indices, and the effects a
run would perform are returned as an explicit operation log.
-/

namespace Epurer

/-! ## internal/config: SafetyLevel, CleanLevel (mobile.go part / config.go)

Go declares `type SafetyLevel int` and `type CleanLevel int`; arbitrary
integer values are representable (the tests exercise `CleanLevel(99)`),
so both are embedded as `Int`. -/

abbrev SafetyLevel := Int

def Safe : SafetyLevel := 0
def Moderate : SafetyLevel := 1
def Dangerous : SafetyLevel := 2

abbrev CleanLevel := Int

def Conservative : CleanLevel := 0
def Standard : CleanLevel := 1
def Aggressive : CleanLevel := 2

/-- `ParseCleanLevel` (config.go): switch on the exact string; the default
branch returns `Standard` together with a non-nil error. The error is
modelled as `Option String` (`none` = nil). -/
def ParseCleanLevel (s : String) : CleanLevel × Option String :=
  if s = "conservative" then (Conservative, none)
  else if s = "standard" then (Standard, none)
  else if s = "aggressive" then (Aggressive, none)
  else (Standard, some ("invalid clean level: " ++ s ++
    " (must be conservative, standard, or aggressive)"))

/-- `CleanLevel.AllowsSafety` (config.go): switch on the clean level with a
fail-closed default branch. -/
def AllowsSafety (cl : CleanLevel) (safety : SafetyLevel) : Bool :=
  if cl = Conservative then safety = Safe
  else if cl = Standard then safety = Safe || safety = Moderate
  else if cl = Aggressive then true
  else false

/-! ## internal/cleaner data model (types.go) -/

structure CleanTarget where
  Path : String
  Description : String
  SizeBytes : Int
  Safety : SafetyLevel
deriving DecidableEq, Repr

structure CleanResult where
  Target : CleanTarget
  Success : Bool
  BytesFreed : Int
  Error : Option String
deriving DecidableEq, Repr

/-! ## Filesystem environment and effect log

Destructive operations a run would perform are logged as `FsOp` values;
a dry run must log nothing.  The environment decides, per path, which error
`os.RemoveAll` would return, and which errors the DNS-flush and Homebrew
cleanup commands would return. -/

inductive FsOp where
  | removeAll (path : String)
  | execCmd (cmd : String)
deriving DecidableEq, Repr

structure FsEnv where
  rmErr : String → Option String
  dnsFlushErr : Option String
  brewCleanupErr : Option String

/-- `utils.SafeRemove` (pkg/utils/filesystem.go): nil and no effect under
dry-run, otherwise `os.RemoveAll(path)`. -/
def SafeRemove (env : FsEnv) (path : String) (dryRun : Bool) :
    Option String × List FsOp :=
  if dryRun then (none, []) else (env.rmErr path, [.removeAll path])

/-- The cancellation context: `ctx i = true` means `ctx.Done()` is closed at
the i-th cooperative check of the loop. -/
abbrev Ctx := Nat → Bool

def ctxCanceledErr : String := "context canceled"

/-! ## FrontendCleaner.Clean (frontend.go)

The same loop body is shared verbatim by the Backend, Mobile and DataML
cleaners: initialise the result with `Success = true`; outside dry-run call
`SafeRemove` and record a failure per target; append the result; then check
`ctx.Done()` and, when cancelled, return the accumulated results together
with `ctx.Err()`. -/

/-- One iteration of the frontend Clean loop for one target. -/
def frontendStep (env : FsEnv) (dryRun : Bool) (t : CleanTarget) :
    CleanResult × List FsOp :=
  if dryRun then
    ({ Target := t, Success := true, BytesFreed := t.SizeBytes, Error := none }, [])
  else
    match SafeRemove env t.Path false with
    | (some e, ops) =>
        ({ Target := t, Success := false, BytesFreed := 0, Error := some e }, ops)
    | (none, ops) =>
        ({ Target := t, Success := true, BytesFreed := t.SizeBytes, Error := none }, ops)

def FrontendCleanGo (env : FsEnv) (dryRun : Bool) (ctx : Ctx) :
    List CleanTarget → Nat → List CleanResult × List FsOp × Option String
  | [], _ => ([], [], none)
  | t :: rest, i =>
    let (res, ops) := frontendStep env dryRun t
    if ctx i then ([res], ops, some ctxCanceledErr)
    else
      let (rs, os, e) := FrontendCleanGo env dryRun ctx rest (i + 1)
      (res :: rs, ops ++ os, e)

/-- `FrontendCleaner.Clean(ctx, targets, dryRun)`. -/
def FrontendClean (env : FsEnv) (ctx : Ctx) (targets : List CleanTarget)
    (dryRun : Bool) : List CleanResult × List FsOp × Option String :=
  FrontendCleanGo env dryRun ctx targets 0

/-! ## SystemCleaner.Clean (system.go)

The system cleaner dispatches on its `cleanerType` string: the DNS cleaner
runs `dscacheutil` and reports `BytesFreed = 0`; the Homebrew cleaner runs
`brew cleanup` and reports the target size as an estimate; every other type
uses `SafeRemove`.  Note the loop contains no `ctx.Done()` check. -/

def TypeTrash : String := "trash"
def TypeCache : String := "cache"
def TypeLogs : String := "logs"
def TypeTemp : String := "temp"
def TypeDNS : String := "dns"
def TypeHomebrew : String := "homebrew"
def TypeXcode : String := "xcode"
def TypeLaunchpad : String := "launchpad"
def TypeIOSBackups : String := "ios_backups"

/-- `SystemCleaner.cleanDNSCache`: no-op under dry-run; otherwise flush via
`dscacheutil -flushcache` (wrapped error on failure) and then signal
`mDNSResponder`, whose error is ignored. -/
def cleanDNSCache (env : FsEnv) (dryRun : Bool) : Option String × List FsOp :=
  if dryRun then (none, [])
  else
    match env.dnsFlushErr with
    | some e => (some ("failed to flush DNS cache: " ++ e),
        [.execCmd "dscacheutil -flushcache"])
    | none => (none,
        [.execCmd "dscacheutil -flushcache", .execCmd "killall -HUP mDNSResponder"])

/-- `SystemCleaner.cleanHomebrew`: no-op under dry-run; otherwise run
`brew cleanup --prune=all`. -/
def cleanHomebrew (env : FsEnv) (dryRun : Bool) : Option String × List FsOp :=
  if dryRun then (none, [])
  else
    match env.brewCleanupErr with
    | some e => (some ("failed to run brew cleanup: " ++ e),
        [.execCmd "brew cleanup --prune=all"])
    | none => (none, [.execCmd "brew cleanup --prune=all"])

/-- One iteration of `SystemCleaner.Clean` for one target. -/
def systemStep (env : FsEnv) (ctype : String) (dryRun : Bool)
    (t : CleanTarget) : CleanResult × List FsOp :=
  if ctype = TypeDNS then
    let (err, ops) := cleanDNSCache env dryRun
    ({ Target := t, Success := err.isNone, BytesFreed := 0, Error := err }, ops)
  else if ctype = TypeHomebrew then
    let (err, ops) := cleanHomebrew env dryRun
    ({ Target := t, Success := err.isNone, BytesFreed := t.SizeBytes,
       Error := err }, ops)
  else
    let (err, ops) := SafeRemove env t.Path dryRun
    ({ Target := t, Success := err.isNone,
       BytesFreed := if err.isNone then t.SizeBytes else 0, Error := err }, ops)

def SystemCleanGo (env : FsEnv) (ctype : String) (dryRun : Bool) :
    List CleanTarget → List CleanResult × List FsOp
  | [] => ([], [])
  | t :: rest =>
    let (res, ops) := systemStep env ctype dryRun t
    let (rs, os) := SystemCleanGo env ctype dryRun rest
    (res :: rs, ops ++ os)

/-- `SystemCleaner.Clean(ctx, targets, dryRun)`.  The `ctx` argument is part
of the Go signature but is never consulted by the loop body, and the
returned error is always nil. -/
def SystemClean (env : FsEnv) (ctype : String) (_ctx : Ctx)
    (targets : List CleanTarget) (dryRun : Bool) :
    List CleanResult × List FsOp × Option String :=
  let (rs, ops) := SystemCleanGo env ctype dryRun targets
  (rs, ops, none)

/-! ## Helper lemmas about the Clean loops -/

theorem frontendStep_target (env : FsEnv) (dr : Bool) (t : CleanTarget) :
    (frontendStep env dr t).1.Target = t := by
  unfold frontendStep SafeRemove
  cases dr <;> simp <;> cases env.rmErr t.Path <;> simp

theorem systemStep_target (env : FsEnv) (ctype : String) (dr : Bool)
    (t : CleanTarget) : (systemStep env ctype dr t).1.Target = t := by
  unfold systemStep
  by_cases h1 : ctype = "dns" <;> by_cases h2 : ctype = "homebrew" <;>
    simp [h1, h2, TypeDNS, TypeHomebrew]

theorem systemCleanGo_eq (env : FsEnv) (ctype : String) (dr : Bool)
    (ts : List CleanTarget) :
    SystemCleanGo env ctype dr ts =
      (ts.map (fun t => (systemStep env ctype dr t).1),
       (ts.map (fun t => (systemStep env ctype dr t).2)).join) := by
  induction ts with
  | nil => rfl
  | cons t rest ih => simp [SystemCleanGo, ih]

theorem frontendCleanGo_no_cancel (env : FsEnv) (dr : Bool) (ctx : Ctx)
    (hctx : ∀ j, ctx j = false) (ts : List CleanTarget) (i : Nat) :
    FrontendCleanGo env dr ctx ts i =
      (ts.map (fun t => (frontendStep env dr t).1),
       (ts.map (fun t => (frontendStep env dr t).2)).join, none) := by
  induction ts generalizing i with
  | nil => rfl
  | cons t rest ih => simp [FrontendCleanGo, hctx, ih]

/-- The cancellation behaviour of the shared frontend Clean loop, for a
context that becomes done at check number `k`: the loop processes targets
`i, i+1, ...` and stops right after the check at index `k`. -/
theorem frontendCleanGo_cancel_at (env : FsEnv) (dr : Bool) (k : Nat)
    (ctx : Ctx) (hctx : ∀ j, ctx j = decide (k ≤ j)) (ts : List CleanTarget)
    (i : Nat) :
    FrontendCleanGo env dr ctx ts i =
      ((ts.take (k - i + 1)).map (fun t => (frontendStep env dr t).1),
       ((ts.take (k - i + 1)).map (fun t => (frontendStep env dr t).2)).join,
       if ts.length ≤ k - i then none else some ctxCanceledErr) := by
  induction ts generalizing i with
  | nil => simp [FrontendCleanGo]
  | cons t rest ih =>
    by_cases hk : k ≤ i
    · have hk0 : k - i = 0 := by omega
      have hstop : ctx i = true := by rw [hctx]; simp [hk]
      simp [FrontendCleanGo, hstop, hk0, List.take_succ_cons]
    · have hgo : ctx i = false := by rw [hctx]; simp; omega
      have harith : k - i + 1 = (k - (i + 1) + 1) + 1 := by omega
      simp only [FrontendCleanGo, hgo, ih (i + 1), harith,
        List.take_succ_cons, List.map_cons, List.flatten_cons,
        Bool.false_eq_true, if_false, List.length_cons, Prod.mk.injEq,
        and_true, true_and, eq_self_iff_true]
      
      by_cases hlen : rest.length ≤ k - (i + 1)
      · rw [if_pos hlen, if_pos (by omega)]
      · rw [if_neg hlen, if_neg (by omega)]

/-! ## Claim C2: the SafetyGate decision table -/

/-- Claim C2: `AllowsSafety` computes exactly the specified decision table:
Conservative allows only Safe; Standard allows exactly Safe and Moderate;
Aggressive allows every safety level; any clean level outside the three
known values denies every safety level (fail closed). -/
theorem c2_allows_safety_table (cl : CleanLevel) (s : SafetyLevel) :
    AllowsSafety Conservative s = decide (s = Safe) ∧
    AllowsSafety Standard s = (decide (s = Safe) || decide (s = Moderate)) ∧
    AllowsSafety Aggressive s = true ∧
    (cl ≠ Conservative → cl ≠ Standard → cl ≠ Aggressive →
      AllowsSafety cl s = false) := by
  refine ⟨?_, ?_, ?_, ?_⟩
  · simp [AllowsSafety, Conservative]
  · simp [AllowsSafety, Standard, Conservative]
  · simp [AllowsSafety, Aggressive, Conservative, Standard]
  · intro h1 h2 h3
    simp [AllowsSafety, h1, h2, h3]

/-- Witness for C2 at a corrupt clean level: the value 99 denies `Safe`. -/
theorem c2_allows_safety_table_witness : AllowsSafety 99 Safe = false :=
  (c2_allows_safety_table 99 Safe).2.2.2 (by decide) (by decide) (by decide)

/-! ## Claim C10: ParseCleanLevel error path -/

/-- Claim C10: for every string other than the three exact level names,
`ParseCleanLevel` returns a non-nil error together with `Standard`, which is
a permissive level (it allows `Moderate`), not a fail-closed deny-all one. -/
theorem c10_parse_clean_level_default (s : String)
    (h1 : s ≠ "conservative") (h2 : s ≠ "standard") (h3 : s ≠ "aggressive") :
    (ParseCleanLevel s).2.isSome ∧ (ParseCleanLevel s).1 = Standard ∧
    AllowsSafety (ParseCleanLevel s).1 Moderate = true := by
  refine ⟨?_, ?_, ?_⟩ <;>
    simp [ParseCleanLevel, h1, h2, h3, AllowsSafety, Standard, Conservative,
      Moderate, Safe]

/-- Witness for C10 on the concrete misspelling "Standard" (wrong case). -/
theorem c10_parse_clean_level_default_witness :
    (ParseCleanLevel "Standard").2.isSome ∧
    (ParseCleanLevel "Standard").1 = Standard ∧
    AllowsSafety (ParseCleanLevel "Standard").1 Moderate = true :=
  c10_parse_clean_level_default "Standard" (by decide) (by decide) (by decide)

/-! ## Claim C5: one CleanResult per target, order-preserving, failure
isolation -/

/-- Claim C5: with an uncancelled context, both embedded Clean
implementations return exactly the pointwise map of a per-target step
function over the input list — hence one result per input target, in input
order, with the i-th result's Target the i-th input — and a `RemoveAll`
failure is recorded in that one target's result (`Success = false`, error
set) without influencing any other entry of the output. -/
theorem c5_clean_per_target (env : FsEnv) (ctx : Ctx) (targets : List CleanTarget)
    (dryRun : Bool) (ctype : String) (hctx : ∀ j, ctx j = false) :
    (FrontendClean env ctx targets dryRun).1 =
      targets.map (fun t => (frontendStep env dryRun t).1) ∧
    (FrontendClean env ctx targets dryRun).1.map (·.Target) = targets ∧
    (FrontendClean env ctx targets dryRun).2.2 = none ∧
    (SystemClean env ctype ctx targets dryRun).1 =
      targets.map (fun t => (systemStep env ctype dryRun t).1) ∧
    (SystemClean env ctype ctx targets dryRun).1.map (·.Target) = targets ∧
    (SystemClean env ctype ctx targets dryRun).2.2 = none ∧
    (∀ t e, env.rmErr t.Path = some e →
      (frontendStep env false t).1.Success = false ∧
      (frontendStep env false t).1.Error = some e) := by
  have hf := frontendCleanGo_no_cancel env dryRun ctx hctx targets 0
  have hs := systemCleanGo_eq env ctype dryRun targets
  refine ⟨?_, ?_, ?_, ?_, ?_, ?_, ?_⟩
  · simp [FrontendClean, hf]
  · simp [FrontendClean, hf, List.map_map, Function.comp_def, frontendStep_target]
  · simp [FrontendClean, hf]
  · simp [SystemClean, hs]
  · simp [SystemClean, hs, List.map_map, Function.comp_def, systemStep_target]
  · simp [SystemClean]
  · intro t e he
    simp [frontendStep, SafeRemove, he]

/-- Witness for C5: a two-target run where the first removal fails. -/
theorem c5_clean_per_target_witness :
    (FrontendClean
        ⟨fun p => if p = "/x" then some "permission denied" else none, none, none⟩
        (fun _ => false)
        [⟨"/x", "x", 3, 0⟩, ⟨"/y", "y", 4, 0⟩] false).1.map (·.Target) =
      [⟨"/x", "x", 3, 0⟩, ⟨"/y", "y", 4, 0⟩] :=
  (c5_clean_per_target
    ⟨fun p => if p = "/x" then some "permission denied" else none, none, none⟩
    (fun _ => false) [⟨"/x", "x", 3, 0⟩, ⟨"/y", "y", 4, 0⟩] false TypeTrash
    (fun _ => rfl)).2.1

/-! ## Claim C1: the dry-run contract (corrected) -/

/-- Concrete targets and environment for the counterexamples. -/
def exEnv : FsEnv := ⟨fun _ => none, none, none⟩

def exTargetA : CleanTarget := ⟨"/a", "a", 1, Safe⟩

def exTargetB : CleanTarget := ⟨"/b", "b", 2, Safe⟩

def exTargetDNS : CleanTarget := ⟨"system:dns_cache", "DNS cache", 1024, Safe⟩

/-- Counterexample to C1 as stated: the DNS system cleaner, run dry on a
target whose `SizeBytes` is 1024, reports `BytesFreed = 0`, not the
target's size. -/
theorem c1_counterexample :
    ((SystemClean exEnv TypeDNS (fun _ => false) [exTargetDNS] true).1.map
        (·.BytesFreed) = [0]) ∧
    exTargetDNS.SizeBytes = 1024 ∧ (0 : Int) ≠ 1024 := by
  refine ⟨rfl, rfl, by decide⟩

/-- Claim C1, amended: a dry-run Clean logs no destructive filesystem
operation and every returned result has `Success = true`; `BytesFreed`
equals the target's `SizeBytes` in the frontend cleaner and in every system
cleaner except the DNS one, which always reports `BytesFreed = 0` (its own
scan only ever produces targets with `SizeBytes = 0`). -/
theorem c1_dry_run_contract (env : FsEnv) (ctx : Ctx)
    (targets : List CleanTarget) (ctype : String) :
    (FrontendClean env ctx targets true).2.1 = [] ∧
    (∀ r ∈ (FrontendClean env ctx targets true).1,
      r.Success = true ∧ r.BytesFreed = r.Target.SizeBytes) ∧
    (SystemClean env ctype ctx targets true).2.1 = [] ∧
    (∀ r ∈ (SystemClean env ctype ctx targets true).1,
      r.Success = true ∧
      r.BytesFreed = if ctype = TypeDNS then 0 else r.Target.SizeBytes) := by
  have hstep : ∀ t, frontendStep env true t =
      ({ Target := t, Success := true, BytesFreed := t.SizeBytes,
         Error := none }, []) := fun t => rfl
  have hsys : ∀ t, (systemStep env ctype true t).2 = [] ∧
      (systemStep env ctype true t).1.Success = true ∧
      (systemStep env ctype true t).1.BytesFreed =
        (if ctype = TypeDNS then 0 else t.SizeBytes) := by
    intro t
    unfold systemStep cleanDNSCache cleanHomebrew SafeRemove
    by_cases h1 : ctype = "dns" <;> by_cases h2 : ctype = "homebrew" <;>
      simp [h1, h2, TypeDNS, TypeHomebrew]
  have hfront : ∀ (ts : List CleanTarget) (i : Nat),
      (FrontendCleanGo env true ctx ts i).2.1 = [] ∧
      ∀ r ∈ (FrontendCleanGo env true ctx ts i).1,
        r.Success = true ∧ r.BytesFreed = r.Target.SizeBytes := by
    intro ts
    induction ts with
    | nil => intro i; simp [FrontendCleanGo]
    | cons t rest ih =>
      intro i
      simp only [FrontendCleanGo, hstep]
      by_cases hc : ctx i
      · simp [hc]
      · simp only [hc, if_false, Bool.false_eq_true]
        refine ⟨by simp [(ih (i + 1)).1], ?_⟩
        intro r hr
        simp only [List.mem_cons] at hr
        rcases hr with h | h
        · subst h; exact ⟨rfl, rfl⟩
        · exact (ih (i + 1)).2 r h
  refine ⟨(hfront targets 0).1, (hfront targets 0).2, ?_, ?_⟩
  · simp only [SystemClean, systemCleanGo_eq]
    have hmap : targets.map (fun t => (systemStep env ctype true t).2) =
        targets.map (fun _ => ([] : List FsOp)) :=
      List.map_congr_left (fun t _ => (hsys t).1)
    simp [hmap]
  · intro r hr
    simp only [SystemClean, systemCleanGo_eq, List.mem_map] at hr
    obtain ⟨t, _, rfl⟩ := hr
    exact ⟨(hsys t).2.1, by rw [(hsys t).2.2, systemStep_target]⟩

/-- Witness for C1 (amended): concrete dry runs of the frontend cleaner and
of the trash system cleaner on a 1-byte target. -/
theorem c1_dry_run_contract_witness :
    (FrontendClean exEnv (fun _ => false) [exTargetA] true).2.1 = [] ∧
    ((⟨exTargetA, true, 1, none⟩ : CleanResult).Success = true ∧
     (⟨exTargetA, true, 1, none⟩ : CleanResult).BytesFreed =
       (⟨exTargetA, true, 1, none⟩ : CleanResult).Target.SizeBytes) ∧
    (SystemClean exEnv TypeTrash (fun _ => false) [exTargetA] true).2.1 = [] := by
  have h := c1_dry_run_contract exEnv (fun _ => false) [exTargetA] TypeTrash
  refine ⟨h.1, h.2.1 ⟨exTargetA, true, 1, none⟩ ?_, h.2.2.1⟩
  simp [FrontendClean, FrontendCleanGo, frontendStep, exTargetA]

/-! ## Claim C8: cancellation checks inside Clean (corrected) -/

/-- Counterexample to C8 as stated: `SystemCleaner.Clean` with a context
that is cancelled from the very start still processes both targets — it
performs both removals, returns two results and reports no cancellation. -/
theorem c8_counterexample :
    ((SystemClean exEnv TypeTrash (fun _ => true) [exTargetA, exTargetB]
        false).1.map (·.Target) = [exTargetA, exTargetB]) ∧
    ((SystemClean exEnv TypeTrash (fun _ => true) [exTargetA, exTargetB]
        false).2.1 = [.removeAll "/a", .removeAll "/b"]) ∧
    ((SystemClean exEnv TypeTrash (fun _ => true) [exTargetA, exTargetB]
        false).2.2 = none) := by
  refine ⟨rfl, rfl, rfl⟩

/-- Claim C8, amended: the frontend Clean loop (shared by the Backend,
Mobile and DataML cleaners) checks the cancellation signal after processing
each target: once the context is done, at check `k`, no further target is
processed — exactly the first `k+1` targets yield results — and the
accumulated results are returned together with the cancellation error.
`SystemCleaner.Clean`, by contrast, never consults the context and always
returns one result per input target. -/
theorem c8_cancellation (env : FsEnv) (dr : Bool) (targets : List CleanTarget)
    (k : Nat) (ctx : Ctx) (ctype : String)
    (hctx : ∀ j, ctx j = decide (k ≤ j)) :
    (FrontendClean env ctx targets dr).1 =
      (targets.take (k + 1)).map (fun t => (frontendStep env dr t).1) ∧
    (FrontendClean env ctx targets dr).2.2 =
      (if targets.length ≤ k then none else some ctxCanceledErr) ∧
    (SystemClean env ctype ctx targets dr).1.length = targets.length := by
  have h := frontendCleanGo_cancel_at env dr k ctx hctx targets 0
  refine ⟨?_, ?_, ?_⟩
  · simp [FrontendClean, h]
  · simp [FrontendClean, h]
  · simp [SystemClean, systemCleanGo_eq]

/-- Witness for C8 (amended): three targets, context done at check 1: the
frontend cleaner stops after two targets and reports cancellation, while the
system cleaner still processes all three. -/
theorem c8_cancellation_witness :
    (FrontendClean exEnv (fun j => decide (1 ≤ j))
        [exTargetA, exTargetB, exTargetA] false).1.map (·.Target) =
      [exTargetA, exTargetB] ∧
    (FrontendClean exEnv (fun j => decide (1 ≤ j))
        [exTargetA, exTargetB, exTargetA] false).2.2 = some ctxCanceledErr ∧
    (SystemClean exEnv TypeTrash (fun j => decide (1 ≤ j))
        [exTargetA, exTargetB, exTargetA] false).1.length = 3 := by
  have h := c8_cancellation exEnv false [exTargetA, exTargetB, exTargetA] 1
    (fun j => decide (1 ≤ j)) TypeTrash (fun j => rfl)
  refine ⟨?_, ?_, h.2.2⟩
  · rw [h.1]; rfl
  · rw [h.2.1]; rfl

/-! ## internal/scanner: Scanner construction (scanner.go)

Paths are embedded as lists of segments (`filepath.Join a b` appends a
segment).  `os.Stat` is abstracted by a `StatEnv`: `none` models a stat
error (path does not exist), `some b` a successful stat with `IsDir() = b`. -/

abbrev GoPath := List String

abbrev StatEnv := GoPath → Option Bool

structure Scanner where
  workers : Int
  homePath : GoPath
  searchDirs : List GoPath
deriving DecidableEq, Repr

/-- The default search-directory candidates of `NewScanner`. -/
def defaultSearchDirs (home : GoPath) : List GoPath :=
  [home ++ ["Projects"], home ++ ["Code"], home ++ ["Development"],
   home ++ ["Developer"], home ++ ["Documents"], home ++ ["Desktop"]]

/-- `NewScanner` (scanner.go): resolve the home directory, then keep only
those default candidates for which `os.Stat` succeeds and reports a
directory. -/
def NewScanner (stat : StatEnv) (home : Option GoPath) :
    Except String Scanner :=
  match home with
  | none => .error "user home directory unavailable"
  | some h =>
    let existingDirs :=
      (defaultSearchDirs h).filter (fun d => (stat d).getD false)
    .ok { workers := 4, homePath := h, searchDirs := existingDirs }

/-- `NewScannerWithDirs` (scanner.go): resolve the home directory and store
the caller-supplied directories as given — the Go body performs no
`os.Stat` filtering at all, which is why the `StatEnv` goes unused. -/
def NewScannerWithDirs (_stat : StatEnv) (home : Option GoPath)
    (dirs : List GoPath) : Except String Scanner :=
  match home with
  | none => .error "user home directory unavailable"
  | some h => .ok { workers := 4, homePath := h, searchDirs := dirs }

/-- `Scanner.AddSearchDir` (scanner.go): stat the path, reject stat errors
and non-directories, otherwise append to the search list. -/
def AddSearchDir (stat : StatEnv) (s : Scanner) (dir : GoPath) :
    Except String Scanner :=
  match stat dir with
  | none => .error "stat error"
  | some isDir =>
      if !isDir then .error "invalid argument"
      else .ok { s with searchDirs := s.searchDirs ++ [dir] }

/-! ## Claim C9: scanner construction from candidate roots (corrected) -/

/-- Counterexample to C9 as stated: constructing a Scanner from the
caller-supplied candidate list `[["nonexistent"]]`, in an environment where
that path does not exist (`stat` = `none` everywhere), keeps the
nonexistent root instead of dropping it. -/
theorem c9_counterexample :
    NewScannerWithDirs (fun _ => none) (some []) [["nonexistent"]] =
      .ok { workers := 4, homePath := [], searchDirs := [["nonexistent"]] } ∧
    (fun _ => (none : Option Bool) : StatEnv) ["nonexistent"] = none :=
  ⟨rfl, rfl⟩

/-- Claim C9, amended: the default constructor `NewScanner` keeps exactly
those of its built-in candidate roots that exist and are directories,
without failing when some are missing; the caller-supplied constructor
`NewScannerWithDirs` stores the given directories unchanged, with no
existence filtering. -/
theorem c9_scanner_construction (stat : StatEnv) (h : GoPath)
    (dirs : List GoPath) :
    NewScanner stat (some h) =
      .ok { workers := 4, homePath := h,
            searchDirs :=
              (defaultSearchDirs h).filter (fun d => (stat d).getD false) } ∧
    (∀ d ∈ (defaultSearchDirs h).filter (fun d => (stat d).getD false),
        stat d = some true) ∧
    NewScannerWithDirs stat (some h) dirs =
      .ok { workers := 4, homePath := h, searchDirs := dirs } := by
  refine ⟨rfl, ?_, rfl⟩
  intro d hd
  rcases List.mem_filter.1 hd with ⟨-, hok⟩
  cases hst : stat d with
  | none => rw [hst] at hok; simp at hok
  | some b => rw [hst] at hok; cases b <;> simp_all

/-- Witness for C9 (amended): a concrete environment in which only the
Projects candidate exists as a directory. -/
theorem c9_scanner_construction_witness :
    NewScanner (fun d => if d = ["home", "Projects"] then some true else none)
        (some ["home"]) =
      .ok { workers := 4, homePath := ["home"],
            searchDirs := [["home", "Projects"]] } ∧
    NewScannerWithDirs
        (fun d => if d = ["home", "Projects"] then some true else none)
        (some ["home"]) [["gone"]] =
      .ok { workers := 4, homePath := ["home"], searchDirs := [["gone"]] } := by
  have h := c9_scanner_construction
    (fun d => if d = ["home", "Projects"] then some true else none)
    ["home"] [["gone"]]
  refine ⟨?_, h.2.2⟩
  rw [h.1]
  rfl

/-! ## cmd runClean orchestration (main.go)

A registered collector is embedded by the data the orchestrator consumes:
its name, the outcome of `Detect` and the outcome of `Scan`.  The scan
phase builds the per-collector target map (`targetsByDomain`, a name-keyed
map embedded as an association list with overwrite-on-insert); the clean
phase iterates the map and calls `Clean` on the first registered collector
carrying the key's name. -/

structure GoCollector where
  name : String
  detectOk : Bool
  detectErr : Option String
  scanTargets : List CleanTarget
  scanErr : Option String
deriving DecidableEq, Repr

/-- A collector contributes a bucket exactly when `Detect` returned
`(true, nil)`, `Scan` returned nil error, and the target list is
non-empty (main.go lines 168-194). -/
def includeInScan (c : GoCollector) : Bool :=
  c.detectErr.isNone && c.detectOk && c.scanErr.isNone &&
    !c.scanTargets.isEmpty

/-- Go map assignment `m[k] = v` on the association-list embedding. -/
def insertAssoc (m : List (String × List CleanTarget)) (k : String)
    (v : List CleanTarget) : List (String × List CleanTarget) :=
  if m.any (fun p => p.1 = k) then
    m.map (fun p => if p.1 = k then (k, v) else p)
  else m ++ [(k, v)]

def scanPhaseAux : List GoCollector → List (String × List CleanTarget) →
    List (String × List CleanTarget)
  | [], acc => acc
  | c :: rest, acc =>
    if includeInScan c then
      scanPhaseAux rest (insertAssoc acc c.name c.scanTargets)
    else scanPhaseAux rest acc

/-- The aggregated per-collector target map built by `runClean`. -/
def targetsByDomain (cs : List GoCollector) :
    List (String × List CleanTarget) :=
  scanPhaseAux cs []

/-- The indices of the collectors whose `Clean` the clean phase invokes:
for each bucket, the first registered collector whose name matches the
bucket key. -/
def cleanCalled (cs : List GoCollector) : List Nat :=
  (targetsByDomain cs).filterMap
    (fun p => cs.findIdx? (fun c => c.name = p.1))

theorem insertAssoc_keys (m : List (String × List CleanTarget)) (k : String)
    (v : List CleanTarget) (nm : String) (hk : k ≠ nm)
    (hm : ∀ p ∈ m, p.1 ≠ nm) : ∀ p ∈ insertAssoc m k v, p.1 ≠ nm := by
  intro p hp
  unfold insertAssoc at hp
  by_cases hany : m.any (fun p => p.1 = k)
  · rw [if_pos hany] at hp
    rcases List.mem_map.1 hp with ⟨q, hq, rfl⟩
    by_cases hqk : q.1 = k
    · simpa [hqk] using hk
    · simpa [hqk] using hm q hq
  · rw [if_neg hany] at hp
    rcases List.mem_append.1 hp with h | h
    · exact hm p h
    · rcases List.mem_singleton.1 h with rfl
      exact hk

theorem scanPhaseAux_keys (nm : String) :
    ∀ (cs : List GoCollector) (acc : List (String × List CleanTarget)),
      (∀ c ∈ cs, c.name = nm → includeInScan c = false) →
      (∀ p ∈ acc, p.1 ≠ nm) →
      ∀ p ∈ scanPhaseAux cs acc, p.1 ≠ nm := by
  intro cs
  induction cs with
  | nil => intro acc _ hacc p hp; exact hacc p hp
  | cons c rest ih =>
    intro acc hcs hacc p hp
    unfold scanPhaseAux at hp
    by_cases hinc : includeInScan c
    · rw [if_pos hinc] at hp
      have hck : c.name ≠ nm := by
        intro he
        rw [hcs c (List.mem_cons_self c rest) he] at hinc
        exact Bool.false_ne_true hinc
      exact ih (insertAssoc acc c.name c.scanTargets)
        (fun d hd => hcs d (List.mem_cons_of_mem c hd))
        (insertAssoc_keys acc c.name c.scanTargets nm hck hacc) p hp
    · rw [if_neg hinc] at hp
      exact ih acc (fun d hd => hcs d (List.mem_cons_of_mem c hd)) hacc p hp

/-! ## Claim C6: excluded collectors never reach the report or Clean -/

/-- Claim C6: in a registry of collectors with pairwise-distinct names, a
collector whose `Detect` returns false or an error contributes no key to
the aggregated per-collector target map, and its `Clean` is never called by
the clean phase. -/
theorem c6_detect_excludes (cs : List GoCollector) (i : Nat)
    (hi : i < cs.length)
    (hexcl : (cs.get ⟨i, hi⟩).detectOk = false ∨
      ((cs.get ⟨i, hi⟩).detectErr).isSome)
    (hnames : cs.Pairwise (fun a b => a.name ≠ b.name)) :
    (∀ p ∈ targetsByDomain cs, p.1 ≠ (cs.get ⟨i, hi⟩).name) ∧
    i ∉ cleanCalled cs := by
  have hkeys : ∀ p ∈ targetsByDomain cs, p.1 ≠ (cs.get ⟨i, hi⟩).name := by
    apply scanPhaseAux_keys _ cs []
    · intro c hc hcn
      rcases List.mem_iff_get.1 hc with ⟨j, rfl⟩
      by_cases hij : j = ⟨i, hi⟩
      · subst hij
        rcases hexcl with h | h
        · have h' : cs[i].detectOk = false := by simpa using h
          simp [includeInScan, h']
        · have h' : (cs[i].detectErr).isSome = true := by simpa using h
          rcases Option.isSome_iff_exists.1 h' with ⟨e, he⟩
          simp [includeInScan, he]
      · exfalso
        have hne : j.1 ≠ i := fun he => hij (Fin.ext he)
        rcases Nat.lt_or_ge j.1 i with hlt | hge
        · exact (List.pairwise_iff_get.1 hnames j ⟨i, hi⟩ hlt) hcn
        · have hgt : i < j.1 := Nat.lt_of_le_of_ne hge (fun he => hne he.symm)
          exact (List.pairwise_iff_get.1 hnames ⟨i, hi⟩ j hgt) hcn.symm
    · intro p hp
      exact absurd hp (List.not_mem_nil p)
  refine ⟨hkeys, ?_⟩
  intro hmem
  rcases List.mem_filterMap.1 hmem with ⟨p, hp, hfind⟩
  rcases List.findIdx?_eq_some_iff_getElem.1 hfind with ⟨hlen, hpi, -⟩
  have : (cs.get ⟨i, hi⟩).name = p.1 := by
    simpa using hpi
  exact hkeys p hp this.symm

/-- Witness for C6: two collectors; the first fails Detect, the second
produces one target.  The theorem gives that the map holds no bucket named
"A" and that collector 0's Clean is never invoked. -/
theorem c6_detect_excludes_witness :
    ("B", [exTargetA]) ∈ targetsByDomain
      [⟨"A", false, none, [exTargetA], none⟩,
       ⟨"B", true, none, [exTargetA], none⟩] ∧
    ("B" : String) ≠ "A" ∧
    0 ∉ cleanCalled
      [⟨"A", false, none, [exTargetA], none⟩,
       ⟨"B", true, none, [exTargetA], none⟩] := by
  have h := c6_detect_excludes
    [⟨"A", false, none, [exTargetA], none⟩,
     ⟨"B", true, none, [exTargetA], none⟩] 0 (by decide)
    (Or.inl rfl) (by simp)
  refine ⟨by decide, ?_, h.2⟩
  exact h.1 ("B", [exTargetA]) (by decide)

/-! ## Filesystem trees for traversal code

`filepath.Walk` / `filepath.WalkDir` traversals are embedded over a rose
tree of named entries.  The `ok` flag models readability: a `false` flag on
a file is a failed `Info()`/stat, on a directory a failed read — in both
cases the Go walk callbacks receive an error and skip (return nil), so the
entry contributes nothing and a directory's children are never visited. -/

mutual
inductive FsTree where
  | file (name : String) (size : Int) (ok : Bool)
  | dir (name : String) (ok : Bool) (children : FsForest)
inductive FsForest where
  | nil
  | cons (head : FsTree) (tail : FsForest)
end

def FsTree.name : FsTree → String
  | .file n _ _ => n
  | .dir n _ _ => n

/-! The non-directory sizes encountered by a `filepath.Walk` of the
subtree, in visit order; erroring entries are skipped and an unreadable
directory's children are never reached (the shared skip logic of both
`utils.GetDirSize` and `Scanner.calculateDirSize`). -/
mutual
def FsTree.visitSizes : FsTree → List Int
  | .file _ s ok => if ok then [s] else []
  | .dir _ ok cs => if ok then FsForest.visitSizes cs else []
def FsForest.visitSizes : FsForest → List Int
  | .nil => []
  | .cons t ts => FsTree.visitSizes t ++ FsForest.visitSizes ts
end

/-- `utils.GetDirSize` (pkg/utils/filesystem.go): a sequential walk folding
`size += info.Size()` over the visited non-directory entries; the walk
callback returns nil on errors, so the call itself never fails. -/
def GetDirSize (t : FsTree) : Int :=
  t.visitSizes.foldl (fun a s => a + s) 0

/-- `Scanner.calculateDirSize` (scanner.go): the same walk, but each
`size += fileSize` runs in its own goroutine under a mutex, so the final
total is the fold of the same multiset of sizes in whatever order the
scheduler interleaves the locked additions. -/
def calculateDirSizeSched (order : List Int) : Int :=
  order.foldl (fun a s => a + s) 0

theorem foldl_add_eq_sum (l : List Int) (a : Int) :
    l.foldl (fun x s => x + s) a = a + l.sum := by
  induction l generalizing a with
  | nil => simp
  | cons x xs ih => simp [ih, add_assoc]

/-! ## Claim C7: concurrent and sequential size aggregation agree -/

/-- Claim C7: for a fixed directory snapshot, the concurrent aggregation of
`Scanner.calculateDirSize` — the mutex-guarded additions performed in any
scheduler-chosen order, i.e. any permutation of the file sizes the walk
visits — produces exactly the total of the sequential `utils.GetDirSize`;
both aggregate only non-directory entries (directories contribute nothing)
and skip unreadable entries without failing. -/
theorem c7_size_aggregation_equiv (t : FsTree) (order : List Int)
    (hperm : order.Perm t.visitSizes) :
    calculateDirSizeSched order = GetDirSize t ∧
    (∀ n s, GetDirSize (.file n s true) = s) ∧
    (∀ n s, GetDirSize (.file n s false) = 0) ∧
    (∀ n cs, GetDirSize (.dir n false cs) = 0) := by
  refine ⟨?_, fun n s => by simp [GetDirSize, FsTree.visitSizes],
    fun n s => by simp [GetDirSize, FsTree.visitSizes],
    fun n cs => by simp [GetDirSize, FsTree.visitSizes]⟩
  unfold calculateDirSizeSched GetDirSize
  rw [foldl_add_eq_sum, foldl_add_eq_sum, hperm.sum_eq]

/-- Witness for C7: the spec scenario — `file1.txt` (5 B), `file2.txt`
(10 B), `subdir/file3.txt` (3 B) — aggregated concurrently in reverse
visit order still totals 18. -/
theorem c7_size_aggregation_equiv_witness :
    calculateDirSizeSched [3, 10, 5] =
      GetDirSize (.dir "root" true
        (.cons (.file "file1.txt" 5 true)
          (.cons (.file "file2.txt" 10 true)
            (.cons (.dir "subdir" true (.cons (.file "file3.txt" 3 true) .nil))
              .nil)))) ∧
    GetDirSize (.dir "root" true
        (.cons (.file "file1.txt" 5 true)
          (.cons (.file "file2.txt" 10 true)
            (.cons (.dir "subdir" true (.cons (.file "file3.txt" 3 true) .nil))
              .nil)))) = 18 := by
  refine ⟨(c7_size_aggregation_equiv _ [3, 10, 5] (by decide)).1, by decide⟩

/-! ## Scanner.walkAndMatch (scanner.go)

The walk of one search root: `filepath.WalkDir` visits the root entry and
then descends.  The base name of every visited entry is compared by
`filepath.Match(pattern, baseName)`, abstracted as the predicate `m`; on a
match the entry is emitted — a directory's size via `calculateDirSize`, a
file's via `Info()` (0 when it errors) — and `filepath.SkipDir` prevents
descent into a matched directory.  Cancellation (`filepath.SkipAll`) only
truncates the emission sequence, so the full list modelled here dominates
every cancelled run. -/

mutual
def FsTree.walk (m : String → Bool) (pp : List String) :
    FsTree → List (List String × Int)
  | .file n s ok =>
      if m n then [(pp ++ [n], if ok then s else 0)] else []
  | .dir n ok cs =>
      if m n then [(pp ++ [n], GetDirSize (.dir n ok cs))]
      else if ok then FsForest.walk m (pp ++ [n]) cs
      else []
def FsForest.walk (m : String → Bool) (pp : List String) :
    FsForest → List (List String × Int)
  | .nil => []
  | .cons t ts => FsTree.walk m pp t ++ FsForest.walk m pp ts
end

def FsForest.names : FsForest → List String
  | .nil => []
  | .cons t ts => t.name :: ts.names

/-! Well-formedness of a snapshot: the entries of each directory carry
pairwise-distinct names, as on a real filesystem. -/

mutual
def FsTree.wfb : FsTree → Bool
  | .file _ _ _ => true
  | .dir _ _ cs => decide cs.names.Nodup && FsForest.wfb cs
def FsForest.wfb : FsForest → Bool
  | .nil => true
  | .cons t ts => FsTree.wfb t && FsForest.wfb ts
end

mutual
theorem walk_prefix_tree (m : String → Bool) (pp : List String) (t : FsTree) :
    ∀ r ∈ FsTree.walk m pp t, pp ++ [t.name] <+: r.1 := by
  intro r hr
  cases t with
  | file n s ok =>
    simp only [FsTree.walk] at hr
    by_cases hm : m n
    · rw [if_pos hm] at hr
      rcases List.mem_singleton.1 hr with rfl
      exact List.prefix_refl _
    · rw [if_neg hm] at hr
      exact absurd hr (List.not_mem_nil r)
  | dir n ok cs =>
    simp only [FsTree.walk] at hr
    by_cases hm : m n
    · rw [if_pos hm] at hr
      rcases List.mem_singleton.1 hr with rfl
      exact List.prefix_refl _
    · rw [if_neg hm] at hr
      by_cases hok : ok
      · rw [if_pos hok] at hr
        obtain ⟨nm, -, hpre⟩ := walk_prefix_forest m (pp ++ [n]) cs r hr
        exact List.IsPrefix.trans (List.prefix_append _ _) hpre
      · rw [if_neg hok] at hr
        exact absurd hr (List.not_mem_nil r)
theorem walk_prefix_forest (m : String → Bool) (pp : List String)
    (f : FsForest) :
    ∀ r ∈ FsForest.walk m pp f, ∃ nm ∈ f.names, pp ++ [nm] <+: r.1 := by
  intro r hr
  cases f with
  | nil => exact absurd hr (List.not_mem_nil r)
  | cons t ts =>
    rcases List.mem_append.1 hr with h | h
    · exact ⟨t.name, List.mem_cons_self _ _, walk_prefix_tree m pp t r h⟩
    · obtain ⟨nm, hnm, hp⟩ := walk_prefix_forest m pp ts r h
      exact ⟨nm, List.mem_cons_of_mem _ hnm, hp⟩
end

mutual
theorem walk_no_ancestor_tree (m : String → Bool) (pp : List String)
    (t : FsTree) (hwf : FsTree.wfb t = true) :
    ∀ r1 ∈ FsTree.walk m pp t, ∀ r2 ∈ FsTree.walk m pp t,
      r1.1 <+: r2.1 → r1.1 = r2.1 := by
  intro r1 h1 r2 h2 hpre
  cases t with
  | file n s ok =>
    simp only [FsTree.walk] at h1 h2
    by_cases hm : m n
    · rw [if_pos hm] at h1 h2
      rcases List.mem_singleton.1 h1 with rfl
      rcases List.mem_singleton.1 h2 with rfl
      rfl
    · rw [if_neg hm] at h1
      exact absurd h1 (List.not_mem_nil r1)
  | dir n ok cs =>
    simp only [FsTree.walk] at h1 h2
    by_cases hm : m n
    · rw [if_pos hm] at h1 h2
      rcases List.mem_singleton.1 h1 with rfl
      rcases List.mem_singleton.1 h2 with rfl
      rfl
    · rw [if_neg hm] at h1 h2
      by_cases hok : ok
      · rw [if_pos hok] at h1 h2
        have hwf2 := hwf
        simp only [FsTree.wfb, Bool.and_eq_true, decide_eq_true_eq] at hwf2
        exact walk_no_ancestor_forest m (pp ++ [n]) cs hwf2.1 hwf2.2
          r1 h1 r2 h2 hpre
      · rw [if_neg hok] at h1
        exact absurd h1 (List.not_mem_nil r1)
theorem walk_no_ancestor_forest (m : String → Bool) (pp : List String)
    (f : FsForest) (hnd : f.names.Nodup) (hwf : FsForest.wfb f = true) :
    ∀ r1 ∈ FsForest.walk m pp f, ∀ r2 ∈ FsForest.walk m pp f,
      r1.1 <+: r2.1 → r1.1 = r2.1 := by
  intro r1 h1 r2 h2 hpre
  cases f with
  | nil => exact absurd h1 (List.not_mem_nil r1)
  | cons t ts =>
    simp only [FsForest.names, List.nodup_cons] at hnd
    simp only [FsForest.wfb, Bool.and_eq_true] at hwf
    rcases List.mem_append.1 h1 with ha | ha <;>
      rcases List.mem_append.1 h2 with hb | hb
    · exact walk_no_ancestor_tree m pp t hwf.1 r1 ha r2 hb hpre
    · exfalso
      have hp1 : pp ++ [t.name] <+: r2.1 :=
        List.IsPrefix.trans (walk_prefix_tree m pp t r1 ha) hpre
      obtain ⟨nm, hnm, hp2⟩ := walk_prefix_forest m pp ts r2 hb
      have heq : pp ++ [t.name] = pp ++ [nm] := by
        rcases List.prefix_or_prefix_of_prefix hp1 hp2 with h | h
        · exact List.IsPrefix.eq_of_length h (by simp)
        · exact (List.IsPrefix.eq_of_length h (by simp)).symm
      have : t.name = nm := by simpa using heq
      exact hnd.1 (this ▸ hnm)
    · exfalso
      have hp1 : pp ++ [t.name] <+: r2.1 := walk_prefix_tree m pp t r2 hb
      obtain ⟨nm, hnm, hp2⟩ := walk_prefix_forest m pp ts r1 ha
      have hp3 : pp ++ [nm] <+: r2.1 := List.IsPrefix.trans hp2 hpre
      have heq : pp ++ [t.name] = pp ++ [nm] := by
        rcases List.prefix_or_prefix_of_prefix hp1 hp3 with h | h
        · exact List.IsPrefix.eq_of_length h (by simp)
        · exact (List.IsPrefix.eq_of_length h (by simp)).symm
      have : t.name = nm := by simpa using heq
      exact hnd.1 (this ▸ hnm)
    · exact walk_no_ancestor_forest m pp ts hnd.2 hwf.2 r1 ha r2 hb hpre
end

/-! ## Scanner.FindByPattern across roots

`FindByPattern` runs `walkAndMatch` once per search directory; a search
directory is a full path into the filesystem, embedded as its parent
segments paired with the subtree rooted there. -/

def rootFullPath (r : List String × FsTree) : List String :=
  r.1 ++ [r.2.name]

/-- The combined emissions of one `FindByPattern` call over all search
roots (the channel merge order is irrelevant to ancestor-freeness). -/
def ScanAll (m : String → Bool) (roots : List (List String × FsTree)) :
    List (List String × Int) :=
  (roots.map (fun r => FsTree.walk m r.1 r.2)).flatten

theorem scanAll_root_prefix (m : String → Bool)
    (roots : List (List String × FsTree)) :
    ∀ x ∈ ScanAll m roots, ∃ r ∈ roots, rootFullPath r <+: x.1 := by
  intro x hx
  rcases List.mem_flatten.1 hx with ⟨l, hl, hxl⟩
  rcases List.mem_map.1 hl with ⟨r, hr, rfl⟩
  exact ⟨r, hr, walk_prefix_tree m r.1 r.2 x hxl⟩

/-! ## Claim C4: the prune-on-match invariant (corrected) -/

/-- Claim C4, amended: within one Scan call over well-formed roots whose
full paths are pairwise non-overlapping (no root a prefix of another — the
situation for the disjoint default roots), no result path is a strict
ancestor of another: a matched entry is emitted and never descended into.
The restriction to non-overlapping roots is necessary: `AddSearchDir` also
accepts a directory nested inside another root, and such a root breaks the
invariant (see the counterexample). -/
theorem c4_prune_on_match (m : String → Bool)
    (roots : List (List String × FsTree))
    (hwf : ∀ r ∈ roots, FsTree.wfb r.2 = true)
    (hdisj : roots.Pairwise (fun a b =>
      ¬ rootFullPath a <+: rootFullPath b ∧
      ¬ rootFullPath b <+: rootFullPath a)) :
    ∀ x ∈ ScanAll m roots, ∀ y ∈ ScanAll m roots,
      x.1 <+: y.1 → x.1 = y.1 := by
  induction roots with
  | nil => intro x hx; simp [ScanAll] at hx
  | cons r rest ih =>
    intro x hx y hy hpre
    have hsplit : ScanAll m (r :: rest) =
        FsTree.walk m r.1 r.2 ++ ScanAll m rest := by
      simp [ScanAll]
    rw [hsplit] at hx hy
    have hdhead := (List.pairwise_cons.1 hdisj).1
    have hdtail := (List.pairwise_cons.1 hdisj).2
    rcases List.mem_append.1 hx with hx1 | hx2 <;>
      rcases List.mem_append.1 hy with hy1 | hy2
    · exact walk_no_ancestor_tree m r.1 r.2
        (hwf r (List.mem_cons_self _ _)) x hx1 y hy1 hpre
    · exfalso
      have h1 : rootFullPath r <+: y.1 :=
        List.IsPrefix.trans (walk_prefix_tree m r.1 r.2 x hx1) hpre
      obtain ⟨r2, hr2, h2⟩ := scanAll_root_prefix m rest y hy2
      rcases List.prefix_or_prefix_of_prefix h1 h2 with h | h
      · exact (hdhead r2 hr2).1 h
      · exact (hdhead r2 hr2).2 h
    · exfalso
      have h1 : rootFullPath r <+: y.1 := walk_prefix_tree m r.1 r.2 y hy1
      obtain ⟨r2, hr2, h2⟩ := scanAll_root_prefix m rest x hx2
      have h3 : rootFullPath r2 <+: y.1 := List.IsPrefix.trans h2 hpre
      rcases List.prefix_or_prefix_of_prefix h1 h3 with h | h
      · exact (hdhead r2 hr2).1 h
      · exact (hdhead r2 hr2).2 h
    · exact ih (fun q hq => hwf q (List.mem_cons_of_mem _ hq)) hdtail
        x hx2 y hy2 hpre

/-- The snapshot for the counterexample: `/a/m/x/m`, all directories. -/
def cexTreeX : FsTree := .dir "x" true (.cons (.dir "m" true .nil) .nil)

def cexTreeA : FsTree :=
  .dir "a" true (.cons (.dir "m" true (.cons cexTreeX .nil)) .nil)

/-- `filepath.Match` with the literal pattern "m". -/
def cexMatch : String → Bool := fun n => n == "m"

def cexRoots : List (List String × FsTree) :=
  [([], cexTreeA), (["a", "m"], cexTreeX)]

/-- Counterexample to C4 as stated: after `AddSearchDir` accepts the
existing directory `/a/m/x` — nested inside `/a`, which `AddSearchDir`
never checks — one Scan over the two roots emits both `/a/m` (matched and
pruned in the first root) and `/a/m/x/m` (matched in the added root), and
the former is a strict ancestor directory of the latter. -/
theorem c4_counterexample :
    AddSearchDir (fun d => if d = ["a", "m", "x"] then some true else none)
        { workers := 4, homePath := [], searchDirs := [["a"]] }
        ["a", "m", "x"] =
      .ok { workers := 4, homePath := [],
            searchDirs := [["a"], ["a", "m", "x"]] } ∧
    ScanAll cexMatch cexRoots =
      [(["a", "m"], 0), (["a", "m", "x", "m"], 0)] ∧
    (["a", "m"] : List String) <+: ["a", "m", "x", "m"] ∧
    (["a", "m"] : List String) ≠ ["a", "m", "x", "m"] := by
  refine ⟨rfl, rfl, ⟨["x", "m"], rfl⟩, by decide⟩

/-- Witness for C4 (amended) on two disjoint well-formed roots. -/
theorem c4_prune_on_match_witness :
    ((["p", "m"] : List String), (0 : Int)).1 = (["p", "m"], (0 : Int)).1 := by
  have hroots : ∀ r ∈ ([(([] : List String),
        FsTree.dir "p" true (.cons (.dir "m" true .nil) .nil)),
      (([] : List String),
        FsTree.dir "q" true (.cons (.dir "m" true .nil) .nil))]), 
      FsTree.wfb r.2 = true := by decide
  have hdisj : ([(([] : List String),
        FsTree.dir "p" true (.cons (.dir "m" true .nil) .nil)),
      (([] : List String),
        FsTree.dir "q" true (.cons (.dir "m" true .nil) .nil))]).Pairwise
      (fun a b => ¬ rootFullPath a <+: rootFullPath b ∧
        ¬ rootFullPath b <+: rootFullPath a) := by decide
  exact c4_prune_on_match cexMatch _ hroots hdisj
    (["p", "m"], 0) (by decide) (["p", "m"], 0) (by decide)
    (List.prefix_refl _)

/-! ## SystemCleaner scan methods (system.go)

The scan methods consult the filesystem only through `utils.PathExists` and
`utils.GetDirSize`, abstracted here as an environment.  `home` is the
resolved user home directory and string paths are the `filepath.Join`
results the Go code builds. -/

structure ScanEnv where
  home : String
  pathExists : String → Bool
  dirSize : String → Int

/-- The fields of `config.Config` (config.go). Only `CleanLevel` is read by
the scan methods. -/
structure Config where
  DryRun : Bool
  Interactive : Bool
  Domains : List Int
  CleanLevel : CleanLevel
  MaxConcurrent : Int
  Verbose : Bool

/-- `SystemCleaner.scanXcode` (system.go:378-414): emits the DerivedData
target at `Safe` and the Archives target at `Moderate`.  The method does
not receive the config at all, so no policy gate is applied to the
Moderate archives target. -/
def scanXcode (env : ScanEnv) : List CleanTarget :=
  let derivedDataPath := env.home ++ "/Library/Developer/Xcode/DerivedData"
  let archivesPath := env.home ++ "/Library/Developer/Xcode/Archives"
  (if env.pathExists derivedDataPath && env.dirSize derivedDataPath > 0 then
    [{ Path := derivedDataPath, Description := "Xcode DerivedData",
       SizeBytes := env.dirSize derivedDataPath, Safety := Safe }]
   else []) ++
  (if env.pathExists archivesPath && env.dirSize archivesPath > 0 then
    [{ Path := archivesPath, Description := "Xcode Archives",
       SizeBytes := env.dirSize archivesPath, Safety := Moderate }]
   else [])

/-- `SystemCleaner.scanLaunchpad` (system.go:416-436): when the Dock
support directory exists, emits one `Dangerous` target unconditionally —
the method has no config parameter and applies no gate. -/
def scanLaunchpad (env : ScanEnv) : List CleanTarget :=
  let dbPath := env.home ++ "/Library/Application Support/Dock"
  if env.pathExists dbPath then
    [{ Path := dbPath, Description := "Launchpad database (will be rebuilt)",
       SizeBytes := 0, Safety := Dangerous }]
  else []

/-- `SystemCleaner.scanIOSBackups` (system.go:438-465): by contrast, this
method gates its `Dangerous` target on `AllowsSafety(Dangerous)` before
scanning. -/
def scanIOSBackups (env : ScanEnv) (cfg : Config) : List CleanTarget :=
  if !AllowsSafety cfg.CleanLevel Dangerous then []
  else
    let backupPath :=
      env.home ++ "/Library/Application Support/MobileSync/Backup"
    if env.pathExists backupPath && env.dirSize backupPath > 0 then
      [{ Path := backupPath,
         Description := "iOS device backups (DANGEROUS - may contain important data)",
         SizeBytes := env.dirSize backupPath, Safety := Dangerous }]
    else []

/-- An environment where every probed path exists and every directory
reports 5 bytes. -/
def c3Env : ScanEnv :=
  { home := "/u", pathExists := (fun _ => true), dirSize := (fun _ => 5) }

def c3ConservativeCfg : Config :=
  { DryRun := false, Interactive := false, Domains := [],
    CleanLevel := Conservative, MaxConcurrent := 4, Verbose := false }

/-! ## Claim C3: collectors exclude policy-rejected targets (code bug) -/

/-- Claim C3, evaluated at the failing input: with a Conservative policy on
a machine where the Xcode and Dock paths exist, `scanXcode` emits the
Moderate Archives target and `scanLaunchpad` emits the Dangerous Launchpad
target even though the policy disallows both (`AllowsSafety` is false for
them) — the gate the spec requires at the collector is missing in these two
methods, while `scanIOSBackups` in the same file does apply it, and even
the default Standard level disallows the Dangerous Launchpad target. -/
theorem c3_failing_eval :
    (scanXcode c3Env).map (fun t => AllowsSafety Conservative t.Safety) =
      [true, false] ∧
    (scanLaunchpad c3Env).map
        (fun t => (t.Safety, AllowsSafety Conservative t.Safety)) =
      [(Dangerous, false)] ∧
    (scanLaunchpad c3Env).map
        (fun t => AllowsSafety Standard t.Safety) = [false] ∧
    scanIOSBackups c3Env c3ConservativeCfg = [] := by
  refine ⟨by decide, by decide, by decide, by decide⟩

end Epurer
